import Mathlib

/-!
Shallow embedding of `src/scraper.py` (class `WebScraper`) from the
Wahapedia-data-cards-collector repository, together with theorems checking the
specification's claims about the fetch/resume workflow.

Conventions of the embedding:

* Python `dict[str, list[str]]` values (the Index / work queue) are modelled as
  association lists `IndexMap := List (String × List String)`.  Python dicts
  preserve insertion order and have unique keys, so theorems that need it take
  a `Nodup` hypothesis on the key list.
* Browser automation is an external collaborator.  Each automation step is
  driven by an oracle delivering an `Outcome`: `ok` (the step completed),
  `exn` (the step raised an `Exception`), `kbint` (the step raised
  `KeyboardInterrupt`, which Python's `except Exception` does not catch).
* A function whose Python original catches exceptions returns its `int` code;
  a function with no handler (such as `fetch_card_from_unit`) surfaces the
  raised outcome to its caller as an `Outcome` different from `ok`.
* File-system writes (`Utils.save_dict_to_json`) are recorded as save events
  `(path, mapping)`, or, for `fetch_indexes`, as an update of a
  `String → Option IndexMap` store; `Utils.load_dictionary_if_exists` is the
  `Option IndexMap` input of the operations that call it.
-/

/-- Result of one external browser-automation step. -/
inductive Outcome : Type
  | ok
  | exn
  | kbint
  deriving DecidableEq

/-- A Python `dict[str, list[str]]` (the Index or the work queue), as an
insertion-ordered association list. -/
abbrev IndexMap := List (String × List String)

/-- Python `d[faction]` on an `IndexMap`: value of the first entry with that key
(`none` models the `KeyError` case). -/
def dictGet (f : String) : IndexMap → Option (List String)
  | [] => none
  | p :: rest => if p.1 = f then some p.2 else dictGet f rest

/-- Python `faction in d.keys()`. -/
def dictContains (m : IndexMap) (f : String) : Bool :=
  m.any (fun p => p.1 == f)

/-- Python `d[faction] = L`: update the entry in place when the key exists,
append a new entry otherwise. -/
def dictSet (m : IndexMap) (f : String) (L : List String) : IndexMap :=
  if dictContains m f then m.map (fun p => if p.1 = f then (f, L) else p)
  else m ++ [(f, L)]

/-- Python `href.split("/")[-1]`: the suffix of `href` after its last `'/'`
character (the whole string when `'/'` does not occur). -/
def lastComp (href : String) : String :=
  String.mk ((href.data.reverse.takeWhile (fun c => c != '/')).reverse)

/-- `WebScraper.get_names_from_html`: the links of the element are handed over
as the list of their `href` attribute strings; the result is their last path
components with `"datasheets.html"` filtered out. -/
def get_names_from_html (hrefs : List String) : List String :=
  let names := hrefs.map lastComp
  names.filter (fun name => name != "datasheets.html")

/-- `self.output_dir` of `WebScraper.__init__`. -/
def output_dir : String := "./out/factions/"

/-- `self.source_dir` of `WebScraper.__init__`. -/
def source_dir : String := "./out/source/"

/-- Path of the canonical Index file written by `fetch_indexes`
(`self.source_dir + "index"`). -/
def indexPath : String := source_dir ++ "index"

/-- Path of the resume snapshot written by `fetch_all_cards`
(`self.source_dir + "temp"`). -/
def tempPath : String := source_dir ++ "temp"

/-- Dynamic state threaded through the card captures: `k` counts the
browser-automation fetch attempts performed so far (it indexes the oracle), and
`captured` lists the `(faction, unit)` screenshots written so far, in order. -/
structure ScrapeState where
  k : Nat
  captured : List (String × String)
  deriving DecidableEq

/-- Initial `ScrapeState` of a run. -/
def startState : ScrapeState := ⟨0, []⟩

/-- `WebScraper.fetch_card_from_unit`.  The Python function navigates, waits and
screenshots with NO exception handler and returns `None`: the returned
`Outcome` is `ok` if the attempt completed (the screenshot for
`(faction, unit)` is then recorded), and otherwise it is the exception the
attempt raised, which propagates to the caller. -/
def fetch_card_from_unit (oracle : Nat → Outcome) (s : ScrapeState)
    (faction unit : String) : Outcome × ScrapeState :=
  match oracle s.k with
  | .ok => (.ok, ⟨s.k + 1, s.captured ++ [(faction, unit)]⟩)
  | o => (o, ⟨s.k + 1, s.captured⟩)

/-- Exit of `fetch_all_cards_from_faction_logic`: `return 0`, `return 1`
(its `except Exception` fired), or a `KeyboardInterrupt` escaping it. -/
inductive LRes : Type
  | r0
  | r1
  | kb
  deriving DecidableEq

/-- The `while units_queue:` loop of `fetch_all_cards_from_faction_logic`.
First argument list is `units_queue` (the copy being popped), second is the
live list `cards_to_fetch[faction]` that `.remove(unit)` mutates; Python
`list.remove` raises `ValueError` when the unit is absent, caught by the
enclosing `except Exception`. -/
def logicLoop (oracle : Nat → Outcome) (faction : String) :
    List String → List String → ScrapeState → List String × LRes × ScrapeState
  | [], cards, s => (cards, .r0, s)
  | u :: rest, cards, s =>
    match fetch_card_from_unit oracle s faction u with
    | (.ok, s') =>
      if u ∈ cards then logicLoop oracle faction rest (cards.erase u) s'
      else (cards, .r1, s')
    | (.exn, s') => (cards, .r1, s')
    | (.kbint, s') => (cards, .kb, s')

/-- `WebScraper.fetch_all_cards_from_faction_logic`: copies
`cards_to_fetch[faction]` into `units_queue` (a missing key raises `KeyError`,
caught by `except Exception`, hence `r1`), runs the loop, and the first
component is the mapping with the faction's mutated list. -/
def fetch_all_cards_from_faction_logic (oracle : Nat → Outcome) (m : IndexMap)
    (faction : String) (s : ScrapeState) : IndexMap × LRes × ScrapeState :=
  match dictGet faction m with
  | none => (m, .r1, s)
  | some L =>
    match logicLoop oracle faction L L s with
    | (cards, r, s') => (dictSet m faction cards, r, s')

/-- The `for faction in cards_to_fetch.keys():` loop of
`fetch_all_cards_logic`; the per-faction return code is ignored, while a
`KeyboardInterrupt` escapes. -/
def cardsLoop (oracle : Nat → Outcome) :
    List String → IndexMap → ScrapeState → IndexMap × LRes × ScrapeState
  | [], m, s => (m, .r0, s)
  | f :: fs, m, s =>
    match fetch_all_cards_from_faction_logic oracle m f s with
    | (m', .kb, s') => (m', .kb, s')
    | (m', .r0, s') => cardsLoop oracle fs m' s'
    | (m', .r1, s') => cardsLoop oracle fs m' s'

/-- `WebScraper.fetch_all_cards_logic`: iterates the per-faction logic over all
keys of the mapping and returns 0; nothing in the loop raises a plain
`Exception` out of it, so its own `except Exception` is dead. -/
def fetch_all_cards_logic (oracle : Nat → Outcome) (m : IndexMap)
    (s : ScrapeState) : IndexMap × LRes × ScrapeState :=
  cardsLoop oracle (m.map Prod.fst) m s

/-- Message printed when `Utils.load_dictionary_if_exists` returned `None`. -/
def noDictMsg : String := "No dictionary found. Please fetch the indexes first."

/-- Message printed by `fetch_all_cards_from_faction` for an unknown faction. -/
def noFactionMsg : String := "The faction does not exist in the dictionary."

/-- Message printed by the `except KeyboardInterrupt` of `fetch_all_cards`. -/
def interruptedAllMsg : String :=
  "\nProcess interrupted by user. The dictionary will be saved to temp.json."

/-- Message printed by the `except Exception` of `fetch_all_cards`. -/
def erroredAllMsg : String :=
  "An error occurred. The dictionary will be saved to temp.json."

/-- Message printed by the `except KeyboardInterrupt` of
`fetch_all_cards_from_faction`. -/
def interruptedFacMsg : String := "\nProcess interrupted by user."

/-- Observable result of one run of a card-fetching operation.  `saves` lists
the `Utils.save_dict_to_json` calls as `(path, mapping)` events; `queueInit`
is the mapping handed to the consuming logic (the work queue), `none` when the
logic was never reached; `interrupted` / `errored` record which `except`
handler fired; `msgs` the fixed messages printed. -/
structure RunResult where
  ret : Nat
  saves : List (String × IndexMap)
  captured : List (String × String)
  queueInit : Option IndexMap
  interrupted : Bool
  errored : Bool
  msgs : List String
  deriving DecidableEq

/-- `WebScraper.fetch_all_cards`.  `loaded` is the result of
`Utils.load_dictionary_if_exists` (read before the `try`), `initO` the outcome
of `init_session`; the capture oracle drives `fetch_card_from_unit`.  On
`KeyboardInterrupt`, or on an `Exception` escaping to its handler, the current
mapping is saved to `tempPath`. -/
def fetch_all_cards (oracle : Nat → Outcome) (initO : Outcome)
    (loaded : Option IndexMap) : RunResult :=
  match loaded with
  | none => ⟨1, [], [], none, false, false, [noDictMsg]⟩
  | some m =>
    match initO with
    | .exn => ⟨1, [(tempPath, m)], [], none, false, true, [erroredAllMsg]⟩
    | .kbint => ⟨1, [(tempPath, m)], [], none, true, false, [interruptedAllMsg]⟩
    | .ok =>
      match fetch_all_cards_logic oracle m startState with
      | (m', .kb, s') =>
        ⟨1, [(tempPath, m')], s'.captured, some m, true, false,
          [interruptedAllMsg]⟩
      | (_, .r0, s') => ⟨0, [], s'.captured, some m, false, false, []⟩
      | (_, .r1, s') => ⟨0, [], s'.captured, some m, false, false, []⟩

/-- `WebScraper.fetch_all_cards_from_faction`.  `init_session` runs first
(inside the `try`), then the mapping is loaded and narrowed to the single
requested faction; neither `except` handler performs any save. -/
def fetch_all_cards_from_faction (oracle : Nat → Outcome) (initO : Outcome)
    (loaded : Option IndexMap) (faction : String) : RunResult :=
  match initO with
  | .exn => ⟨1, [], [], none, false, true, []⟩
  | .kbint => ⟨1, [], [], none, true, false, [interruptedFacMsg]⟩
  | .ok =>
    match loaded with
    | none => ⟨1, [], [], none, false, false, [noDictMsg]⟩
    | some m =>
      match dictGet faction m with
      | none => ⟨1, [], [], none, false, false, [noFactionMsg]⟩
      | some L =>
        match fetch_all_cards_from_faction_logic oracle [(faction, L)] faction
            startState with
        | (_, .kb, s') =>
          ⟨1, [], s'.captured, some [(faction, L)], true, false,
            [interruptedFacMsg]⟩
        | (_, .r0, s') =>
          ⟨0, [], s'.captured, some [(faction, L)], false, false, []⟩
        | (_, .r1, s') =>
          ⟨0, [], s'.captured, some [(faction, L)], false, false, []⟩

/-- `WebScraper.remove_cookies`: when `check_for_cookies` is false it returns 0
at once; otherwise `self.driver.get(self.home_url)` runs OUTSIDE the `try`
blocks (outcome `nav`), and the two wait-and-click steps each have their own
`except Exception` returning 1.  `Except.error` means an exception escaped the
function; the `Bool` of the payload is the new `check_for_cookies` flag. -/
def remove_cookies (check : Bool) (nav o1 o2 : Outcome) :
    Except Outcome (Nat × Bool) :=
  if check = false then .ok (0, check)
  else
    match nav with
    | .ok =>
      match o1 with
      | .ok =>
        match o2 with
        | .ok => .ok (0, false)
        | .exn => .ok (1, check)
        | .kbint => .error .kbint
      | .exn => .ok (1, check)
      | .kbint => .error .kbint
    | e => .error e

/-- `WebScraper.fetch_factions_names`: navigate and locate the menu (outcome
`o`, inside `try`), then scrape the names; `names0` is the prior value of
`self.factions_names`, returned unchanged when the `except Exception` fires.
Only a `KeyboardInterrupt` escapes. -/
def fetch_factions_names (o : Outcome) (menuHrefs : List String)
    (names0 : List String) : Except Outcome (Nat × List String) :=
  match o with
  | .ok => .ok (0, get_names_from_html menuHrefs)
  | .exn => .ok (1, names0)
  | .kbint => .error .kbint

/-- `WebScraper.fetch_units_names_from_faction`: navigate, hover and read the
tooltip (outcome `o`), then assign `factions_dict[faction] = names`; on its
`except Exception` the dictionary is unchanged and 1 is returned. -/
def fetch_units_names_from_faction (o : Outcome) (hrefs : List String)
    (d : IndexMap) (faction : String) : Except Outcome (Nat × IndexMap) :=
  match o with
  | .ok => .ok (0, dictSet d faction (get_names_from_html hrefs))
  | .exn => .ok (1, d)
  | .kbint => .error .kbint

/-- Modelled from the spec: `Utils.init_dictionary_with_keys` is code of this
repository not under `src/`.  Per the spec's Index ("mapping from category
name (string) to ordered sequence of item names", built by the enumeration
pass), it creates the mapping with one entry per enumerated category name,
each initially empty.  (A Python dict comprehension would also merge duplicate
keys; the theorems about `fetch_indexes` assume the enumerated names are
distinct.) -/
def init_dictionary_with_keys (keys : List String) : IndexMap :=
  keys.map (fun k => (k, []))

/-- The `for faction_name in self.factions_names:` loop of `fetch_indexes`;
`none` models a `KeyboardInterrupt` escaping the loop. -/
def unitsLoop (unitsO : String → Outcome) (unitsHrefs : String → List String) :
    List String → IndexMap → Option IndexMap
  | [], d => some d
  | n :: rest, d =>
    match fetch_units_names_from_faction (unitsO n) (unitsHrefs n) d n with
    | .error _ => none
    | .ok (_, d') => unitsLoop unitsO unitsHrefs rest d'

/-- `WebScraper.fetch_indexes`.  `initO` is the outcome of `init_session`,
`namesO`/`menuHrefs` drive `fetch_factions_names` (whose return code is
ignored: on failure `self.factions_names` stays `[]`), `unitsO`/`unitsHrefs`
drive the per-faction enumeration.  `fs` is the store of persisted mappings;
`Utils.save_dict_to_json` (repository code not under `src/`, modelled from the
spec: the Index is "persisted as the canonical work-to-do record" and
"overwritten on each re-run") overwrites the entry at `indexPath`.  Returns
the Python return code and the final store. -/
def fetch_indexes (initO namesO : Outcome) (menuHrefs : List String)
    (unitsO : String → Outcome) (unitsHrefs : String → List String)
    (fs : String → Option IndexMap) : Nat × (String → Option IndexMap) :=
  match initO with
  | .ok =>
    match fetch_factions_names namesO menuHrefs [] with
    | .error _ => (1, fs)
    | .ok (_, names) =>
      match unitsLoop unitsO unitsHrefs names (init_dictionary_with_keys names) with
      | none => (1, fs)
      | some d => (0, Function.update fs indexPath (some d))
  | _ => (1, fs)

/-- The units captured for faction `f`, in capture order. -/
def capturedFor (f : String) (l : List (String × String)) : List String :=
  (l.filter (fun p => p.1 == f)).map Prod.snd

/-- Number of consecutive successful fetch outcomes delivered by the oracle
from index `base` on, capped at the length of the work list. -/
def succCount (oracle : Nat → Outcome) : Nat → List String → Nat
  | _, [] => 0
  | base, _ :: rest =>
    match oracle base with
    | .ok => succCount oracle (base + 1) rest + 1
    | _ => 0

/-- Return code of an operation that did not raise. -/
def retCode {α : Type} : Except Outcome (Nat × α) → Option Nat
  | .ok p => some p.1
  | .error _ => none

/-! ### Characterization of the per-faction capture loop -/

lemma succCount_le (oracle : Nat → Outcome) :
    ∀ (L : List String) (b : Nat), succCount oracle b L ≤ L.length := by
  intro L
  induction L with
  | nil => intro b; simp [succCount]
  | cons u rest ih =>
    intro b
    simp only [succCount, List.length_cons]
    cases oracle b with
    | ok => exact Nat.succ_le_succ (ih (b + 1))
    | exn => exact Nat.zero_le _
    | kbint => exact Nat.zero_le _

lemma logicLoop_eq (oracle : Nat → Outcome) (faction : String) :
    ∀ (L : List String) (b : Nat) (cap : List (String × String)),
      logicLoop oracle faction L L ⟨b, cap⟩ =
        (L.drop (succCount oracle b L),
         if succCount oracle b L = L.length then LRes.r0
         else if oracle (b + succCount oracle b L) = Outcome.exn then LRes.r1
         else LRes.kb,
         ⟨b + succCount oracle b L +
            (if succCount oracle b L = L.length then 0 else 1),
          cap ++ (L.take (succCount oracle b L)).map (fun u => (faction, u))⟩) := by
  intro L
  induction L with
  | nil => intro b cap; simp [logicLoop, succCount]
  | cons u rest ih =>
    intro b cap
    simp only [logicLoop, fetch_card_from_unit]
    cases h : oracle b with
    | ok =>
      have hs : succCount oracle b (u :: rest) = succCount oracle (b + 1) rest + 1 := by
        simp [succCount, h]
      have hb : b + (succCount oracle (b + 1) rest + 1) = b + 1 + succCount oracle (b + 1) rest := by
        omega
      simp only [hs, List.mem_cons, true_or, if_true, List.erase_cons_head,
        List.drop_succ_cons, List.take_succ_cons, List.length_cons, hb]
      rw [ih (b + 1) (cap ++ [(faction, u)])]
      simp [Nat.add_left_inj, List.append_assoc]
    | exn =>
      have hs : succCount oracle b (u :: rest) = 0 := by
        simp [succCount, h]
      simp [hs, h]
    | kbint =>
      have hs : succCount oracle b (u :: rest) = 0 := by
        simp [succCount, h]
      simp [hs, h]

/-! ### Dictionary lemmas -/

lemma dictContains_cons (p : String × List String) (rest : IndexMap)
    (f : String) :
    dictContains (p :: rest) f = ((p.1 == f) || dictContains rest f) := by
  simp [dictContains]

lemma dictContains_of_get (f : String) :
    ∀ (m : IndexMap) (L : List String), dictGet f m = some L →
      dictContains m f = true := by
  intro m
  induction m with
  | nil => intro L h; simp [dictGet] at h
  | cons p rest ih =>
    intro L h
    rw [dictContains_cons]
    by_cases hp : p.1 = f
    · simp [hp]
    · simp only [dictGet, if_neg hp] at h
      simp [ih L h]

lemma dictGet_map_update (f : String) (L : List String) :
    ∀ (m : IndexMap), dictContains m f = true →
      dictGet f (m.map (fun p => if p.1 = f then (f, L) else p)) = some L := by
  intro m
  induction m with
  | nil => intro h; simp [dictContains] at h
  | cons p rest ih =>
    intro h
    by_cases hp : p.1 = f
    · simp [List.map_cons, if_pos hp, dictGet]
    · rw [dictContains_cons] at h
      simp only [List.map_cons, if_neg hp, dictGet]
      apply ih
      simpa [hp] using h

lemma dictGet_set_self (f : String) (L : List String) (m : IndexMap)
    (L0 : List String) (h : dictGet f m = some L0) :
    dictGet f (dictSet m f L) = some L := by
  have hc := dictContains_of_get f m L0 h
  rw [dictSet, if_pos hc]
  exact dictGet_map_update f L m hc

lemma dictGet_map_update_ne (g f : String) (hg : g ≠ f) (L : List String) :
    ∀ (m : IndexMap),
      dictGet g (m.map (fun p => if p.1 = f then (f, L) else p)) =
        dictGet g m := by
  intro m
  induction m with
  | nil => simp
  | cons p rest ih =>
    by_cases hp : p.1 = f
    · have h1 : ¬ ((f, L).1 = g) := fun e => hg (e.symm ▸ rfl)
      have h2 : ¬ (p.1 = g) := by rw [hp]; exact fun e => hg e.symm
      simp only [List.map_cons, if_pos hp, dictGet, if_neg h1, if_neg h2]
      exact ih
    · by_cases hpg : p.1 = g
      · simp only [List.map_cons, if_neg hp, dictGet, if_pos hpg]
      · simp only [List.map_cons, if_neg hp, dictGet, if_neg hpg]
        exact ih

lemma dictGet_append_single (g f : String) (hg : g ≠ f) (L : List String) :
    ∀ (m : IndexMap), dictGet g (m ++ [(f, L)]) = dictGet g m := by
  intro m
  induction m with
  | nil =>
    have h1 : ¬ ((f, L).1 = g) := fun e => hg (e.symm ▸ rfl)
    simp [dictGet, if_neg h1]
  | cons p rest ih =>
    by_cases hpg : p.1 = g
    · simp only [List.cons_append, dictGet, if_pos hpg]
    · simp only [List.cons_append, dictGet, if_neg hpg]
      exact ih

lemma dictGet_set_ne (g f : String) (hg : g ≠ f) (L : List String)
    (m : IndexMap) : dictGet g (dictSet m f L) = dictGet g m := by
  rw [dictSet]
  by_cases hc : dictContains m f
  · rw [if_pos hc]
    exact dictGet_map_update_ne g f hg L m
  · rw [if_neg hc]
    exact dictGet_append_single g f hg L m

/-! ### Capture-list lemmas -/

lemma capturedFor_append (f : String) (a b : List (String × String)) :
    capturedFor f (a ++ b) = capturedFor f a ++ capturedFor f b := by
  simp [capturedFor, List.filter_append]

lemma capturedFor_map_self (f : String) :
    ∀ (xs : List String), capturedFor f (xs.map (fun u => (f, u))) = xs := by
  intro xs
  induction xs with
  | nil => simp [capturedFor]
  | cons u rest ih => simpa [capturedFor] using ih

lemma capturedFor_map_other (f g : String) (hg : g ≠ f) :
    ∀ (xs : List String), capturedFor f (xs.map (fun u => (g, u))) = [] := by
  intro xs
  induction xs with
  | nil => simp [capturedFor]
  | cons u rest _ => simp [capturedFor, hg]

/-! ### Per-faction logic characterization -/

lemma logic_eq (oracle : Nat → Outcome) (m : IndexMap) (faction : String)
    (b : Nat) (cap : List (String × String)) (L : List String)
    (hf : dictGet faction m = some L) :
    fetch_all_cards_from_faction_logic oracle m faction ⟨b, cap⟩ =
      (dictSet m faction (L.drop (succCount oracle b L)),
       if succCount oracle b L = L.length then LRes.r0
       else if oracle (b + succCount oracle b L) = Outcome.exn then LRes.r1
       else LRes.kb,
       ⟨b + succCount oracle b L +
          (if succCount oracle b L = L.length then 0 else 1),
        cap ++ (L.take (succCount oracle b L)).map (fun u => (faction, u))⟩) := by
  simp only [fetch_all_cards_from_faction_logic, hf,
    logicLoop_eq oracle faction L b cap]

lemma logic_none (oracle : Nat → Outcome) (m : IndexMap) (faction : String)
    (s : ScrapeState) (hf : dictGet faction m = none) :
    fetch_all_cards_from_faction_logic oracle m faction s = (m, .r1, s) := by
  simp only [fetch_all_cards_from_faction_logic, hf]

/-! ### Whole-run loop lemmas -/

lemma cardsLoop_frame (oracle : Nat → Outcome) (f : String) :
    ∀ (fs : List String), f ∉ fs →
      ∀ (m : IndexMap) (b : Nat) (cap : List (String × String)),
        dictGet f (cardsLoop oracle fs m ⟨b, cap⟩).1 = dictGet f m ∧
        capturedFor f (cardsLoop oracle fs m ⟨b, cap⟩).2.2.captured =
          capturedFor f cap := by
  intro fs
  induction fs with
  | nil => intro _ m b cap; simp [cardsLoop]
  | cons g fs' ih =>
    intro hnotin m b cap
    have hfg : f ≠ g := fun e => hnotin (by rw [e]; exact List.mem_cons_self g fs')
    have hgf : g ≠ f := fun e => hfg e.symm
    have hfs' : f ∉ fs' := fun h => hnotin (List.mem_cons_of_mem g h)
    cases hg : dictGet g m with
    | none =>
      simp only [cardsLoop, logic_none oracle m g ⟨b, cap⟩ hg]
      exact ih hfs' m b cap
    | some Lg =>
      simp only [cardsLoop, logic_eq oracle m g b cap Lg hg]
      by_cases h1 : succCount oracle b Lg = Lg.length
      · simp only [if_pos h1]
        refine ⟨?_, ?_⟩
        · rw [(ih hfs' _ _ _).1, dictGet_set_ne f g hfg]
        · rw [(ih hfs' _ _ _).2, capturedFor_append,
            capturedFor_map_other f g hgf, List.append_nil]
      · by_cases h2 : oracle (b + succCount oracle b Lg) = Outcome.exn
        · simp only [if_neg h1, if_pos h2]
          refine ⟨?_, ?_⟩
          · rw [(ih hfs' _ _ _).1, dictGet_set_ne f g hfg]
          · rw [(ih hfs' _ _ _).2, capturedFor_append,
              capturedFor_map_other f g hgf, List.append_nil]
        · simp only [if_neg h1, if_neg h2]
          refine ⟨?_, ?_⟩
          · exact dictGet_set_ne f g hfg _ m
          · rw [capturedFor_append, capturedFor_map_other f g hgf,
              List.append_nil]

lemma cardsLoop_spec (oracle : Nat → Outcome) (f : String) (L : List String) :
    ∀ (fs : List String), fs.Nodup →
      ∀ (m : IndexMap) (b : Nat) (cap : List (String × String)),
        dictGet f m = some L →
        ∃ k, k ≤ L.length ∧
          dictGet f (cardsLoop oracle fs m ⟨b, cap⟩).1 = some (L.drop k) ∧
          capturedFor f (cardsLoop oracle fs m ⟨b, cap⟩).2.2.captured =
            capturedFor f cap ++ L.take k := by
  intro fs
  induction fs with
  | nil =>
    intro _ m b cap hf
    exact ⟨0, Nat.zero_le _, by simpa [cardsLoop] using hf, by simp [cardsLoop]⟩
  | cons g fs' ih =>
    intro hnd m b cap hf
    have hg_notin : g ∉ fs' := (List.nodup_cons.mp hnd).1
    have hnd' : fs'.Nodup := (List.nodup_cons.mp hnd).2
    by_cases hfg : f = g
    · subst hfg
      simp only [cardsLoop, logic_eq oracle m f b cap L hf]
      by_cases h1 : succCount oracle b L = L.length
      · simp only [if_pos h1]
        obtain ⟨fr1, fr2⟩ := cardsLoop_frame oracle f fs' hg_notin
          (dictSet m f (L.drop (succCount oracle b L))) _ _
        refine ⟨succCount oracle b L, succCount_le oracle L b, ?_, ?_⟩
        · rw [fr1, dictGet_set_self f _ m L hf]
        · rw [fr2, capturedFor_append, capturedFor_map_self]
      · by_cases h2 : oracle (b + succCount oracle b L) = Outcome.exn
        · simp only [if_neg h1, if_pos h2]
          obtain ⟨fr1, fr2⟩ := cardsLoop_frame oracle f fs' hg_notin
            (dictSet m f (L.drop (succCount oracle b L))) _ _
          refine ⟨succCount oracle b L, succCount_le oracle L b, ?_, ?_⟩
          · rw [fr1, dictGet_set_self f _ m L hf]
          · rw [fr2, capturedFor_append, capturedFor_map_self]
        · simp only [if_neg h1, if_neg h2]
          refine ⟨succCount oracle b L, succCount_le oracle L b, ?_, ?_⟩
          · exact dictGet_set_self f _ m L hf
          · rw [capturedFor_append, capturedFor_map_self]
    · have hgf : g ≠ f := fun e => hfg e.symm
      cases hgm : dictGet g m with
      | none =>
        simp only [cardsLoop, logic_none oracle m g ⟨b, cap⟩ hgm]
        exact ih hnd' m b cap hf
      | some Lg =>
        simp only [cardsLoop, logic_eq oracle m g b cap Lg hgm]
        have hf' : dictGet f
            (dictSet m g (Lg.drop (succCount oracle b Lg))) = some L := by
          rw [dictGet_set_ne f g hfg]; exact hf
        by_cases h1 : succCount oracle b Lg = Lg.length
        · simp only [if_pos h1]
          obtain ⟨k, hk, hk1, hk2⟩ := ih hnd' _ _ _ hf'
          refine ⟨k, hk, hk1, ?_⟩
          rw [hk2, capturedFor_append, capturedFor_map_other f g hgf,
            List.append_nil]
        · by_cases h2 : oracle (b + succCount oracle b Lg) = Outcome.exn
          · simp only [if_neg h1, if_pos h2]
            obtain ⟨k, hk, hk1, hk2⟩ := ih hnd' _ _ _ hf'
            refine ⟨k, hk, hk1, ?_⟩
            rw [hk2, capturedFor_append, capturedFor_map_other f g hgf,
              List.append_nil]
          · simp only [if_neg h1, if_neg h2]
            refine ⟨0, Nat.zero_le _, ?_, ?_⟩
            · simpa using hf'
            · rw [capturedFor_append, capturedFor_map_other f g hgf,
                List.append_nil, List.take_zero, List.append_nil]

/-! ### Claim theorems -/

/-- C1: in `fetch_all_cards_from_faction_logic`, a unit is removed from the
shared mapping `cards_to_fetch[faction]` only after `fetch_card_from_unit`
returned for it without raising: the final sequence is the original one with
exactly the captured units (an initial segment) removed, and when the loop
did not return 0 the unit whose capture raised is still in the sequence
(the count of removed units is strictly below the length). -/
theorem logic_removes_unit_only_after_capture (oracle : Nat → Outcome)
    (faction : String) (L : List String) :
    dictGet faction
        (fetch_all_cards_from_faction_logic oracle [(faction, L)] faction
          startState).1 =
      some (L.drop
        (fetch_all_cards_from_faction_logic oracle [(faction, L)] faction
          startState).2.2.captured.length) ∧
    (fetch_all_cards_from_faction_logic oracle [(faction, L)] faction
        startState).2.2.captured =
      (L.take
        (fetch_all_cards_from_faction_logic oracle [(faction, L)] faction
          startState).2.2.captured.length).map (fun u => (faction, u)) ∧
    (fetch_all_cards_from_faction_logic oracle [(faction, L)] faction
        startState).2.2.captured.length ≤ L.length ∧
    ((fetch_all_cards_from_faction_logic oracle [(faction, L)] faction
        startState).2.1 ≠ LRes.r0 →
      (fetch_all_cards_from_faction_logic oracle [(faction, L)] faction
        startState).2.2.captured.length < L.length) := by
  have hf : dictGet faction [(faction, L)] = some L := by simp [dictGet]
  have hc := succCount_le oracle L 0
  simp only [startState]
  rw [logic_eq oracle [(faction, L)] faction 0 [] L hf]
  have hset : dictSet [(faction, L)] faction
      (L.drop (succCount oracle 0 L)) =
      [(faction, L.drop (succCount oracle 0 L))] := by
    simp [dictSet, dictContains]
  simp only [hset, List.nil_append, List.length_map, List.length_take,
    min_eq_left hc]
  refine ⟨by simp [dictGet], trivial, hc, ?_⟩
  by_cases h1 : succCount oracle 0 L = L.length
  · simp [if_pos h1]
  · intro _
    exact lt_of_le_of_ne hc h1

/-- C1 witness: concrete instance where the first capture raises, so nothing
is removed and the failing unit is still first in the sequence. -/
theorem logic_removes_unit_only_after_capture_witness :
    dictGet "f"
        (fetch_all_cards_from_faction_logic (fun _ => Outcome.exn)
          [("f", ["u1", "u2"])] "f" startState).1 =
      some (["u1", "u2"].drop
        (fetch_all_cards_from_faction_logic (fun _ => Outcome.exn)
          [("f", ["u1", "u2"])] "f" startState).2.2.captured.length) ∧
    (fetch_all_cards_from_faction_logic (fun _ => Outcome.exn)
        [("f", ["u1", "u2"])] "f" startState).2.2.captured =
      (["u1", "u2"].take
        (fetch_all_cards_from_faction_logic (fun _ => Outcome.exn)
          [("f", ["u1", "u2"])] "f" startState).2.2.captured.length).map
        (fun u => ("f", u)) ∧
    (fetch_all_cards_from_faction_logic (fun _ => Outcome.exn)
        [("f", ["u1", "u2"])] "f" startState).2.2.captured.length ≤
      ["u1", "u2"].length ∧
    ((fetch_all_cards_from_faction_logic (fun _ => Outcome.exn)
        [("f", ["u1", "u2"])] "f" startState).2.1 ≠ LRes.r0 →
      (fetch_all_cards_from_faction_logic (fun _ => Outcome.exn)
        [("f", ["u1", "u2"])] "f" startState).2.2.captured.length <
        ["u1", "u2"].length) :=
  logic_removes_unit_only_after_capture (fun _ => Outcome.exn) "f" ["u1", "u2"]

/-- C7: the units of a faction are captured front-to-back in the order of the
persisted Index sequence: the captured units form exactly an initial segment
(a take) of the faction's list, and the remaining work list is the matching
drop. -/
theorem captures_in_index_order (oracle : Nat → Outcome) (faction : String)
    (L : List String) :
    capturedFor faction
        (fetch_all_cards_from_faction_logic oracle [(faction, L)] faction
          startState).2.2.captured =
      L.take (capturedFor faction
        (fetch_all_cards_from_faction_logic oracle [(faction, L)] faction
          startState).2.2.captured).length ∧
    dictGet faction
        (fetch_all_cards_from_faction_logic oracle [(faction, L)] faction
          startState).1 =
      some (L.drop (capturedFor faction
        (fetch_all_cards_from_faction_logic oracle [(faction, L)] faction
          startState).2.2.captured).length) := by
  have hf : dictGet faction [(faction, L)] = some L := by simp [dictGet]
  have hc := succCount_le oracle L 0
  simp only [startState]
  rw [logic_eq oracle [(faction, L)] faction 0 [] L hf]
  have hset : dictSet [(faction, L)] faction
      (L.drop (succCount oracle 0 L)) =
      [(faction, L.drop (succCount oracle 0 L))] := by
    simp [dictSet, dictContains]
  simp only [hset, List.nil_append, capturedFor_map_self, List.length_take,
    min_eq_left hc]
  exact ⟨trivial, by simp [dictGet]⟩

/-- C8: every name returned by `get_names_from_html` is the part of one of the
contained links' href after its last slash, and `"datasheets.html"` is never
returned. -/
theorem names_from_href_last_component (hrefs : List String) (name : String)
    (h : name ∈ get_names_from_html hrefs) :
    name ∈ hrefs.map lastComp ∧ name ≠ "datasheets.html" := by
  simp only [get_names_from_html] at h
  have hm := List.mem_filter.mp h
  refine ⟨hm.1, ?_⟩
  simpa using hm.2

/-- C8 witness: concrete href list where the unit name is kept and the
datasheets link is dropped. -/
theorem names_from_href_last_component_witness :
    "unit-a" ∈ get_names_from_html ["f/unit-a", "f/datasheets.html"] ∧
    ("unit-a" ∈ ["f/unit-a", "f/datasheets.html"].map lastComp ∧
      "unit-a" ≠ "datasheets.html") :=
  ⟨by decide,
    names_from_href_last_component ["f/unit-a", "f/datasheets.html"] "unit-a"
      (by decide)⟩

lemma fetch_faction_saves_eq_nil (oracle : Nat → Outcome) (initO : Outcome)
    (loaded : Option IndexMap) (faction : String) :
    (fetch_all_cards_from_faction oracle initO loaded faction).saves = [] := by
  cases initO with
  | exn => simp [fetch_all_cards_from_faction]
  | kbint => simp [fetch_all_cards_from_faction]
  | ok =>
    cases loaded with
    | none => simp [fetch_all_cards_from_faction]
    | some m =>
      cases hd : dictGet faction m with
      | none => simp [fetch_all_cards_from_faction, hd]
      | some L =>
        rcases hres : fetch_all_cards_from_faction_logic oracle [(faction, L)]
          faction startState with ⟨m', r, s'⟩
        cases r <;> simp [fetch_all_cards_from_faction, hd, hres]

/-- C3 counterexample: a run of `fetch_all_cards_from_faction` interrupted by
the user (first capture raises `KeyboardInterrupt`) returns 1 through its
interruption handler WITHOUT re-persisting anything: no resume snapshot is
written, contradicting the claim for this operation. -/
theorem faction_interrupt_saves_nothing :
    (fetch_all_cards_from_faction (fun _ => Outcome.kbint) Outcome.ok
        (some [("f", ["u"])]) "f").interrupted = true ∧
    (fetch_all_cards_from_faction (fun _ => Outcome.kbint) Outcome.ok
        (some [("f", ["u"])]) "f").ret = 1 ∧
    (fetch_all_cards_from_faction (fun _ => Outcome.kbint) Outcome.ok
        (some [("f", ["u"])]) "f").saves = [] := by
  decide

/-- C3 amended: only `fetch_all_cards` re-persists the work queue, and only
when its own `except` handlers fire (user interruption, or an error outside
the per-card capture handling, such as session initialization): it then saves
exactly one snapshot, holding the current mapping (the loaded mapping when a
handler fires before the capture loop, the mutated mapping the loop produced
when a `KeyboardInterrupt` escapes it), at the 'temp' path, distinct from the
canonical 'index' path, and returns 1.  A run in which neither handler fires
saves nothing, even when card captures failed with swallowed exceptions, and
`fetch_all_cards_from_faction` never writes any snapshot. -/
theorem temp_snapshot_only_in_fetch_all_cards
    (oracle oracle2 oracle3 oracle4 : Nat → Outcome)
    (initO initO2 initO3 : Outcome)
    (loaded loaded2 loaded3 : Option IndexMap)
    (m4 m4' : IndexMap) (s4 : ScrapeState) (faction : String)
    (h : (fetch_all_cards oracle initO loaded).interrupted = true ∨
      (fetch_all_cards oracle initO loaded).errored = true)
    (hres4 : fetch_all_cards_logic oracle4 m4 startState =
      (m4', LRes.kb, s4)) :
    (fetch_all_cards oracle initO loaded).saves.map Prod.fst = [tempPath] ∧
    (fetch_all_cards oracle initO loaded).ret = 1 ∧
    tempPath ≠ indexPath ∧
    (fetch_all_cards oracle2 Outcome.exn (some m4)).saves =
      [(tempPath, m4)] ∧
    (fetch_all_cards oracle2 Outcome.kbint (some m4)).saves =
      [(tempPath, m4)] ∧
    (fetch_all_cards oracle4 Outcome.ok (some m4)).saves =
      [(tempPath, m4')] ∧
    ((fetch_all_cards oracle3 initO3 loaded3).interrupted = false →
      (fetch_all_cards oracle3 initO3 loaded3).errored = false →
      (fetch_all_cards oracle3 initO3 loaded3).saves = []) ∧
    (fetch_all_cards_from_faction oracle2 initO2 loaded2 faction).saves = [] := by
  have hne : tempPath ≠ indexPath := by decide
  have hnil := fetch_faction_saves_eq_nil oracle2 initO2 loaded2 faction
  have hkb : (fetch_all_cards oracle4 Outcome.ok (some m4)).saves =
      [(tempPath, m4')] := by
    simp [fetch_all_cards, hres4]
  have honly : (fetch_all_cards oracle3 initO3 loaded3).interrupted = false →
      (fetch_all_cards oracle3 initO3 loaded3).errored = false →
      (fetch_all_cards oracle3 initO3 loaded3).saves = [] := by
    cases loaded3 with
    | none => intro _ _; simp [fetch_all_cards]
    | some m3 =>
      cases initO3 with
      | exn => intro _ herr; exfalso; simp [fetch_all_cards] at herr
      | kbint => intro hint _; exfalso; simp [fetch_all_cards] at hint
      | ok =>
        rcases hres3 : fetch_all_cards_logic oracle3 m3 startState
          with ⟨m3', r3, s3⟩
        cases r3 with
        | r0 => intro _ _; simp [fetch_all_cards, hres3]
        | r1 => intro _ _; simp [fetch_all_cards, hres3]
        | kb => intro hint _; exfalso; simp [fetch_all_cards, hres3] at hint
  cases loaded with
  | none => simp [fetch_all_cards] at h
  | some m =>
    cases initO with
    | exn =>
      exact ⟨by simp [fetch_all_cards], by simp [fetch_all_cards], hne,
        by simp [fetch_all_cards], by simp [fetch_all_cards], hkb, honly, hnil⟩
    | kbint =>
      exact ⟨by simp [fetch_all_cards], by simp [fetch_all_cards], hne,
        by simp [fetch_all_cards], by simp [fetch_all_cards], hkb, honly, hnil⟩
    | ok =>
      rcases hres : fetch_all_cards_logic oracle m startState with ⟨m', r, s'⟩
      cases r with
      | r0 => exfalso; simp [fetch_all_cards, hres] at h
      | r1 => exfalso; simp [fetch_all_cards, hres] at h
      | kb =>
        exact ⟨by simp [fetch_all_cards, hres], by simp [fetch_all_cards, hres],
          hne, by simp [fetch_all_cards], by simp [fetch_all_cards], hkb, honly,
          hnil⟩

/-- C3 amended witness: user interruption during session initialization of
`fetch_all_cards` saves the loaded mapping to the 'temp' snapshot; a capture
loop interrupted at its first unit saves the current mapping; a run whose
captures all fail with swallowed exceptions fires no handler and saves
nothing; a per-faction run saves nothing. -/
theorem temp_snapshot_only_in_fetch_all_cards_witness :
    (fetch_all_cards (fun _ => Outcome.ok) Outcome.kbint
        (some [("f", ["u"])])).saves.map Prod.fst = [tempPath] ∧
    (fetch_all_cards (fun _ => Outcome.ok) Outcome.kbint
        (some [("f", ["u"])])).ret = 1 ∧
    tempPath ≠ indexPath ∧
    (fetch_all_cards (fun _ => Outcome.ok) Outcome.exn
        (some [("f", ["u"])])).saves = [(tempPath, [("f", ["u"])])] ∧
    (fetch_all_cards (fun _ => Outcome.ok) Outcome.kbint
        (some [("f", ["u"])])).saves = [(tempPath, [("f", ["u"])])] ∧
    (fetch_all_cards (fun _ => Outcome.kbint) Outcome.ok
        (some [("f", ["u"])])).saves = [(tempPath, [("f", ["u"])])] ∧
    ((fetch_all_cards (fun _ => Outcome.exn) Outcome.ok
        (some [("f", ["u"])])).interrupted = false →
      (fetch_all_cards (fun _ => Outcome.exn) Outcome.ok
        (some [("f", ["u"])])).errored = false →
      (fetch_all_cards (fun _ => Outcome.exn) Outcome.ok
        (some [("f", ["u"])])).saves = []) ∧
    (fetch_all_cards_from_faction (fun _ => Outcome.ok) Outcome.ok none
        "f").saves = [] :=
  temp_snapshot_only_in_fetch_all_cards (fun _ => Outcome.ok)
    (fun _ => Outcome.ok) (fun _ => Outcome.exn) (fun _ => Outcome.kbint)
    Outcome.kbint Outcome.ok Outcome.ok (some [("f", ["u"])]) none
    (some [("f", ["u"])]) [("f", ["u"])] [("f", ["u"])] ⟨1, []⟩ "f"
    (Or.inl (by decide)) (by decide)

/-- C4 counterexample: `fetch_card_from_unit` is a browser-automation
operation (navigate, wait, screenshot) with NO exception handler: it does not
return a 0/1 code, and at this concrete input the raised `Exception`
propagates to its caller, where `fetch_all_cards_from_faction_logic`'s own
`except Exception` turns it into the caller's return value 1. -/
theorem fetch_card_propagates_exception :
    (fetch_card_from_unit (fun _ => Outcome.exn) startState "f" "u").1 =
      Outcome.exn ∧
    (fetch_card_from_unit (fun _ => Outcome.exn) startState "f" "u").2.captured
      = [] ∧
    fetch_all_cards_from_faction_logic (fun _ => Outcome.exn) [("f", ["u"])]
        "f" startState =
      ([("f", ["u"])], LRes.r1, ⟨1, []⟩) := by
  decide

/-- C4 amended: the enumeration and cookie operations (`remove_cookies` past
its initial navigation, `fetch_factions_names`,
`fetch_units_names_from_faction`) collapse every caught failure into a 0/1
return code and let only `KeyboardInterrupt` escape; but the initial
navigation of `remove_cookies` is outside its handlers and propagates, and
`fetch_card_from_unit` has no handler at all: every exception it raises
propagates to its caller. -/
theorem error_signalling_amended (check : Bool) (o1 o2 onav ounits : Outcome)
    (menuHrefs hrefs names0 : List String) (d : IndexMap) (faction : String)
    (s : ScrapeState) (f u : String)
    (h1 : o1 ≠ Outcome.kbint) (h2 : o2 ≠ Outcome.kbint)
    (h3 : onav ≠ Outcome.kbint) (h4 : ounits ≠ Outcome.kbint) :
    ((retCode (remove_cookies check Outcome.ok o1 o2)).isSome = true ∧
      (retCode (remove_cookies check Outcome.ok o1 o2)).getD 0 ≤ 1) ∧
    ((retCode (fetch_factions_names onav menuHrefs names0)).isSome = true ∧
      (retCode (fetch_factions_names onav menuHrefs names0)).getD 0 ≤ 1) ∧
    ((retCode (fetch_units_names_from_faction ounits hrefs d faction)).isSome
        = true ∧
      (retCode (fetch_units_names_from_faction ounits hrefs d faction)).getD 0
        ≤ 1) ∧
    remove_cookies true Outcome.exn o1 o2 = Except.error Outcome.exn ∧
    (fetch_card_from_unit (fun _ => Outcome.exn) s f u).1 = Outcome.exn := by
  refine ⟨?_, ?_, ?_, ?_, ?_⟩
  · cases check <;> cases o1 <;> cases o2 <;>
      simp_all [remove_cookies, retCode]
  · cases onav <;> simp_all [fetch_factions_names, retCode]
  · cases ounits <;> simp_all [fetch_units_names_from_faction, retCode]
  · simp [remove_cookies]
  · simp [fetch_card_from_unit]

/-- C4 amended witness: concrete outcomes exercising the 0/1 signalling and
the propagation. -/
theorem error_signalling_amended_witness :
    ((retCode (remove_cookies true Outcome.ok Outcome.exn Outcome.ok)).isSome
        = true ∧
      (retCode (remove_cookies true Outcome.ok Outcome.exn Outcome.ok)).getD 0
        ≤ 1) ∧
    ((retCode (fetch_factions_names Outcome.exn ["m/a"] [])).isSome = true ∧
      (retCode (fetch_factions_names Outcome.exn ["m/a"] [])).getD 0 ≤ 1) ∧
    ((retCode (fetch_units_names_from_faction Outcome.ok ["f/u"] [] "f")).isSome
        = true ∧
      (retCode (fetch_units_names_from_faction Outcome.ok ["f/u"] [] "f")).getD
        0 ≤ 1) ∧
    remove_cookies true Outcome.exn Outcome.exn Outcome.ok =
      Except.error Outcome.exn ∧
    (fetch_card_from_unit (fun _ => Outcome.exn) startState "g" "v").1 =
      Outcome.exn :=
  error_signalling_amended true Outcome.exn Outcome.ok Outcome.exn Outcome.ok
    ["m/a"] ["f/u"] [] [] "f" startState "g" "v" (by decide) (by decide)
    (by decide) (by decide)

/-- C9: `fetch_all_cards_from_faction` never writes a resume snapshot, and the
mapping it hands to the consuming logic is the loaded mapping narrowed to the
single requested faction (so the sequences of all other factions in the loaded
mapping are not part of the consumed work queue at all). -/
theorem faction_narrowing_no_snapshot (oracle : Nat → Outcome)
    (initO : Outcome) (loaded : Option IndexMap) (m : IndexMap)
    (faction : String) :
    (fetch_all_cards_from_faction oracle initO loaded faction).saves = [] ∧
    (fetch_all_cards_from_faction oracle Outcome.ok (some m) faction).queueInit
      = (dictGet faction m).map (fun L => [(faction, L)]) := by
  refine ⟨fetch_faction_saves_eq_nil oracle initO loaded faction, ?_⟩
  cases hd : dictGet faction m with
  | none => simp [fetch_all_cards_from_faction, hd]
  | some L =>
    rcases hres : fetch_all_cards_from_faction_logic oracle [(faction, L)]
      faction startState with ⟨m', r, s'⟩
    cases r <;> simp [fetch_all_cards_from_faction, hd, hres]

/-- C5: the work queue of both card-fetching operations is derived from the
persisted Index: when no mapping was persisted both print the no-dictionary
message and return 1 with no card captured; an unknown faction makes
`fetch_all_cards_from_faction` print its message and return 1 with no card
captured; otherwise the queue handed to the logic is exactly the loaded
mapping, narrowed to the requested faction in the per-faction case. -/
theorem queue_from_persisted_index (oracle : Nat → Outcome) (initO : Outcome)
    (m : IndexMap) (faction faction2 : String) (L : List String)
    (h1 : dictGet faction m = some L) (h2 : dictGet faction2 m = none) :
    (fetch_all_cards oracle initO none).ret = 1 ∧
    (fetch_all_cards oracle initO none).captured = [] ∧
    (fetch_all_cards oracle initO none).msgs = [noDictMsg] ∧
    (fetch_all_cards_from_faction oracle Outcome.ok none faction).ret = 1 ∧
    (fetch_all_cards_from_faction oracle Outcome.ok none faction).captured
      = [] ∧
    (fetch_all_cards_from_faction oracle Outcome.ok none faction).msgs =
      [noDictMsg] ∧
    (fetch_all_cards_from_faction oracle Outcome.ok (some m) faction2).ret
      = 1 ∧
    (fetch_all_cards_from_faction oracle Outcome.ok (some m)
      faction2).captured = [] ∧
    (fetch_all_cards_from_faction oracle Outcome.ok (some m) faction2).msgs =
      [noFactionMsg] ∧
    (fetch_all_cards oracle Outcome.ok (some m)).queueInit = some m ∧
    (fetch_all_cards_from_faction oracle Outcome.ok (some m)
      faction).queueInit = some [(faction, L)] := by
  refine ⟨by simp [fetch_all_cards], by simp [fetch_all_cards],
    by simp [fetch_all_cards], by simp [fetch_all_cards_from_faction],
    by simp [fetch_all_cards_from_faction],
    by simp [fetch_all_cards_from_faction],
    by simp [fetch_all_cards_from_faction, h2],
    by simp [fetch_all_cards_from_faction, h2],
    by simp [fetch_all_cards_from_faction, h2], ?_, ?_⟩
  · rcases hres : fetch_all_cards_logic oracle m startState with ⟨m', r, s'⟩
    cases r <;> simp [fetch_all_cards, hres]
  · rcases hres : fetch_all_cards_from_faction_logic oracle [(faction, L)]
      faction startState with ⟨m', r, s'⟩
    cases r <;> simp [fetch_all_cards_from_faction, h1, hres]

/-- C5 witness: concrete mapping with a present faction and an absent one. -/
theorem queue_from_persisted_index_witness :
    (fetch_all_cards (fun _ => Outcome.ok) Outcome.ok none).ret = 1 ∧
    (fetch_all_cards (fun _ => Outcome.ok) Outcome.ok none).captured = [] ∧
    (fetch_all_cards (fun _ => Outcome.ok) Outcome.ok none).msgs =
      [noDictMsg] ∧
    (fetch_all_cards_from_faction (fun _ => Outcome.ok) Outcome.ok none
      "f").ret = 1 ∧
    (fetch_all_cards_from_faction (fun _ => Outcome.ok) Outcome.ok none
      "f").captured = [] ∧
    (fetch_all_cards_from_faction (fun _ => Outcome.ok) Outcome.ok none
      "f").msgs = [noDictMsg] ∧
    (fetch_all_cards_from_faction (fun _ => Outcome.ok) Outcome.ok
      (some [("f", ["u"])]) "g").ret = 1 ∧
    (fetch_all_cards_from_faction (fun _ => Outcome.ok) Outcome.ok
      (some [("f", ["u"])]) "g").captured = [] ∧
    (fetch_all_cards_from_faction (fun _ => Outcome.ok) Outcome.ok
      (some [("f", ["u"])]) "g").msgs = [noFactionMsg] ∧
    (fetch_all_cards (fun _ => Outcome.ok) Outcome.ok
      (some [("f", ["u"])])).queueInit = some [("f", ["u"])] ∧
    (fetch_all_cards_from_faction (fun _ => Outcome.ok) Outcome.ok
      (some [("f", ["u"])]) "f").queueInit = some [("f", ["u"])] :=
  queue_from_persisted_index (fun _ => Outcome.ok) Outcome.ok [("f", ["u"])]
    "f" "g" ["u"] (by decide) (by decide)

lemma succCount_stop (oracle : Nat → Outcome) :
    ∀ (L : List String) (b : Nat), succCount oracle b L ≠ L.length →
      oracle (b + succCount oracle b L) ≠ Outcome.ok := by
  intro L
  induction L with
  | nil => intro b h; simp [succCount] at h
  | cons u rest ih =>
    intro b h
    cases ho : oracle b with
    | ok =>
      have hs : succCount oracle b (u :: rest) =
          succCount oracle (b + 1) rest + 1 := by
        simp [succCount, ho]
      rw [hs] at h ⊢
      have h' : succCount oracle (b + 1) rest ≠ rest.length := by
        intro e
        exact h (by simp [e])
      have harg : b + (succCount oracle (b + 1) rest + 1) =
          (b + 1) + succCount oracle (b + 1) rest := by omega
      rw [harg]
      exact ih (b + 1) h'
    | exn =>
      have hs : succCount oracle b (u :: rest) = 0 := by simp [succCount, ho]
      rw [hs, Nat.add_zero, ho]
      simp
    | kbint =>
      have hs : succCount oracle b (u :: rest) = 0 := by simp [succCount, ho]
      rw [hs, Nat.add_zero, ho]
      simp

lemma cardsLoop_no_kb (oracle : Nat → Outcome)
    (hno : ∀ n, oracle n ≠ Outcome.kbint) :
    ∀ (fs : List String) (m : IndexMap) (b : Nat)
      (cap : List (String × String)),
      (cardsLoop oracle fs m ⟨b, cap⟩).2.1 ≠ LRes.kb := by
  intro fs
  induction fs with
  | nil => intro m b cap; simp [cardsLoop]
  | cons g fs' ih =>
    intro m b cap
    cases hg : dictGet g m with
    | none =>
      simp only [cardsLoop, logic_none oracle m g ⟨b, cap⟩ hg]
      exact ih m b cap
    | some Lg =>
      simp only [cardsLoop, logic_eq oracle m g b cap Lg hg]
      by_cases h1 : succCount oracle b Lg = Lg.length
      · simp only [if_pos h1]
        exact ih _ _ _
      · by_cases h2 : oracle (b + succCount oracle b Lg) = Outcome.exn
        · simp only [if_neg h1, if_pos h2]
          exact ih _ _ _
        · exfalso
          have hstop := succCount_stop oracle Lg b h1
          cases hoc : oracle (b + succCount oracle b Lg) with
          | ok => exact hstop hoc
          | exn => exact h2 hoc
          | kbint => exact hno _ hoc

/-- C10: `fetch_all_cards` returns 0 whenever no `KeyboardInterrupt` occurs
during the run, even if any or every individual card capture fails with an
exception (those are swallowed by the per-faction logic and the per-faction
return value is ignored); it returns 1 exactly on `KeyboardInterrupt` or on a
failure outside the per-faction capture loop such as session
initialization. -/
theorem fetch_all_cards_return_codes (oracle : Nat → Outcome) (m : IndexMap)
    (hno : ∀ n, oracle n ≠ Outcome.kbint) :
    (fetch_all_cards oracle Outcome.ok (some m)).ret = 0 ∧
    (fetch_all_cards oracle Outcome.exn (some m)).ret = 1 ∧
    (fetch_all_cards oracle Outcome.kbint (some m)).ret = 1 := by
  refine ⟨?_, by simp [fetch_all_cards], by simp [fetch_all_cards]⟩
  have h := cardsLoop_no_kb oracle hno (m.map Prod.fst) m 0 []
  rcases hres : fetch_all_cards_logic oracle m startState with ⟨m', r, s'⟩
  rw [fetch_all_cards_logic, startState] at hres
  rw [hres] at h
  cases r with
  | kb => simp at h
  | r0 => simp [fetch_all_cards, fetch_all_cards_logic, startState, hres]
  | r1 => simp [fetch_all_cards, fetch_all_cards_logic, startState, hres]

/-- C10 witness: every capture fails with an exception, yet the run returns
0; failing or interrupted session initialization returns 1. -/
theorem fetch_all_cards_return_codes_witness :
    (fetch_all_cards (fun _ => Outcome.exn) Outcome.ok
      (some [("f", ["u"]), ("g", ["v"])])).ret = 0 ∧
    (fetch_all_cards (fun _ => Outcome.exn) Outcome.exn
      (some [("f", ["u"]), ("g", ["v"])])).ret = 1 ∧
    (fetch_all_cards (fun _ => Outcome.exn) Outcome.kbint
      (some [("f", ["u"]), ("g", ["v"])])).ret = 1 :=
  fetch_all_cards_return_codes (fun _ => Outcome.exn)
    [("f", ["u"]), ("g", ["v"])] (fun _ h => Outcome.noConfusion h)

/-- C2: whenever a run of `fetch_all_cards` persists the resume snapshot, the
snapshot's sequence for each faction is exactly the suffix of that faction's
Index sequence that was not yet captured: the captured units are the matching
prefix, and (the unit names being distinct) no captured unit remains in the
snapshot, so a resumed run starting from the snapshot does not contain any
already-captured unit. -/
theorem resume_snapshot_exactly_unfetched (oracle : Nat → Outcome)
    (initO : Outcome) (m m' : IndexMap) (f : String) (L : List String)
    (hnd : (m.map Prod.fst).Nodup) (hf : dictGet f m = some L)
    (hLnd : L.Nodup)
    (hsave : (tempPath, m') ∈ (fetch_all_cards oracle initO (some m)).saves) :
    dictGet f m' =
      some (L.drop (capturedFor f
        (fetch_all_cards oracle initO (some m)).captured).length) ∧
    capturedFor f (fetch_all_cards oracle initO (some m)).captured =
      L.take (capturedFor f
        (fetch_all_cards oracle initO (some m)).captured).length ∧
    (capturedFor f (fetch_all_cards oracle initO (some m)).captured).length
      ≤ L.length ∧
    List.Disjoint
      (L.take (capturedFor f
        (fetch_all_cards oracle initO (some m)).captured).length)
      (L.drop (capturedFor f
        (fetch_all_cards oracle initO (some m)).captured).length) := by
  cases initO with
  | exn =>
    simp only [fetch_all_cards] at hsave ⊢
    simp only [List.mem_singleton, Prod.mk.injEq, true_and] at hsave
    subst hsave
    exact ⟨by simpa [capturedFor] using hf, by simp [capturedFor],
      by simp [capturedFor], by simp [capturedFor, List.Disjoint]⟩
  | kbint =>
    simp only [fetch_all_cards] at hsave ⊢
    simp only [List.mem_singleton, Prod.mk.injEq, true_and] at hsave
    subst hsave
    exact ⟨by simpa [capturedFor] using hf, by simp [capturedFor],
      by simp [capturedFor], by simp [capturedFor, List.Disjoint]⟩
  | ok =>
    rcases hres : fetch_all_cards_logic oracle m startState with ⟨m2, r, s'⟩
    cases r with
    | r0 => simp [fetch_all_cards, hres] at hsave
    | r1 => simp [fetch_all_cards, hres] at hsave
    | kb =>
      simp only [fetch_all_cards, hres] at hsave ⊢
      simp only [List.mem_singleton, Prod.mk.injEq, true_and] at hsave
      subst hsave
      rw [fetch_all_cards_logic, startState] at hres
      obtain ⟨k, hk, h1, h2⟩ :=
        cardsLoop_spec oracle f L (m.map Prod.fst) hnd m 0 [] hf
      rw [hres] at h1 h2
      have h2' : capturedFor f s'.captured = L.take k := by
        simpa [capturedFor] using h2
      have hlen : (capturedFor f s'.captured).length = k := by
        rw [h2']
        simp [List.length_take, min_eq_left hk]
      refine ⟨?_, ?_, ?_, ?_⟩
      · rw [hlen]
        exact h1
      · rw [hlen]
        exact h2'
      · rw [hlen]
        exact hk
      · rw [hlen]
        have hsplit := hLnd
        rw [← List.take_append_drop k L] at hsplit
        exact (List.nodup_append.mp hsplit).2.2

/-- C2 witness: a run over two factions is interrupted at the third capture;
the snapshot keeps exactly the unfetched units of faction `g`. -/
theorem resume_snapshot_exactly_unfetched_witness :
    ((List.map Prod.fst
      [("f", ["u1"]), ("g", ["v1", "v2", "v3"])]).Nodup ∧
      dictGet "g" [("f", ["u1"]), ("g", ["v1", "v2", "v3"])] =
        some ["v1", "v2", "v3"] ∧
      ["v1", "v2", "v3"].Nodup ∧
      (tempPath, [("f", ([] : List String)), ("g", ["v3"])]) ∈
        (fetch_all_cards (fun n => if n = 3 then Outcome.kbint else Outcome.ok)
          Outcome.ok
          (some [("f", ["u1"]), ("g", ["v1", "v2", "v3"])])).saves) ∧
    (dictGet "g" [("f", ([] : List String)), ("g", ["v3"])] =
      some (["v1", "v2", "v3"].drop (capturedFor "g"
        (fetch_all_cards (fun n => if n = 3 then Outcome.kbint else Outcome.ok)
          Outcome.ok
          (some [("f", ["u1"]), ("g", ["v1", "v2", "v3"])])).captured).length) ∧
    capturedFor "g"
        (fetch_all_cards (fun n => if n = 3 then Outcome.kbint else Outcome.ok)
          Outcome.ok
          (some [("f", ["u1"]), ("g", ["v1", "v2", "v3"])])).captured =
      ["v1", "v2", "v3"].take (capturedFor "g"
        (fetch_all_cards (fun n => if n = 3 then Outcome.kbint else Outcome.ok)
          Outcome.ok
          (some [("f", ["u1"]), ("g", ["v1", "v2", "v3"])])).captured).length ∧
    (capturedFor "g"
        (fetch_all_cards (fun n => if n = 3 then Outcome.kbint else Outcome.ok)
          Outcome.ok
          (some [("f", ["u1"]), ("g", ["v1", "v2", "v3"])])).captured).length ≤
      ["v1", "v2", "v3"].length ∧
    List.Disjoint
      (["v1", "v2", "v3"].take (capturedFor "g"
        (fetch_all_cards (fun n => if n = 3 then Outcome.kbint else Outcome.ok)
          Outcome.ok
          (some [("f", ["u1"]), ("g", ["v1", "v2", "v3"])])).captured).length)
      (["v1", "v2", "v3"].drop (capturedFor "g"
        (fetch_all_cards (fun n => if n = 3 then Outcome.kbint else Outcome.ok)
          Outcome.ok
          (some [("f", ["u1"]), ("g", ["v1", "v2", "v3"])])).captured).length)) :=
  ⟨⟨by decide, by decide, by decide, by decide⟩,
    resume_snapshot_exactly_unfetched
      (fun n => if n = 3 then Outcome.kbint else Outcome.ok) Outcome.ok
      [("f", ["u1"]), ("g", ["v1", "v2", "v3"])]
      [("f", ([] : List String)), ("g", ["v3"])] "g" ["v1", "v2", "v3"]
      (by decide) (by decide) (by decide) (by decide)⟩

lemma map_keep_of_ne (n : String) (V : List String) :
    ∀ (l : IndexMap), (∀ p ∈ l, p.1 ≠ n) →
      l.map (fun p => if p.1 = n then (n, V) else p) = l := by
  intro l
  induction l with
  | nil => intro _; simp
  | cons p rest ih =>
    intro h
    have hp : ¬ (p.1 = n) := h p (List.mem_cons_self p rest)
    simp only [List.map_cons, if_neg hp]
    rw [ih (fun q hq => h q (List.mem_cons_of_mem p hq))]

lemma unitsLoop_spec (unitsO : String → Outcome)
    (unitsHrefs : String → List String) :
    ∀ (names : List String) (done : IndexMap),
      names.Nodup → (∀ n ∈ names, unitsO n = Outcome.ok) →
      (∀ n ∈ names, ∀ p ∈ done, p.1 ≠ n) →
      unitsLoop unitsO unitsHrefs names
          (done ++ names.map (fun k => (k, []))) =
        some (done ++ names.map
          (fun k => (k, get_names_from_html (unitsHrefs k)))) := by
  intro names
  induction names with
  | nil => intro done _ _ _; simp [unitsLoop]
  | cons n rest ih =>
    intro done hnd hok hdisj
    have hn_notin : n ∉ rest := (List.nodup_cons.mp hnd).1
    have hn_ok : unitsO n = Outcome.ok := hok n (List.mem_cons_self n rest)
    simp only [List.map_cons, unitsLoop, fetch_units_names_from_faction, hn_ok]
    have hset : dictSet (done ++ (n, []) :: rest.map (fun k => (k, [])))
        n (get_names_from_html (unitsHrefs n)) =
        (done ++ [(n, get_names_from_html (unitsHrefs n))]) ++
          rest.map (fun k => (k, [])) := by
      have hc : dictContains
          (done ++ (n, []) :: rest.map (fun k => (k, []))) n = true := by
        simp [dictContains, List.any_append, List.any_cons]
      rw [dictSet, if_pos hc, List.map_append,
        map_keep_of_ne n _ done
          (fun p hp => hdisj n (List.mem_cons_self n rest) p hp)]
      simp only [List.map_cons, if_pos rfl]
      rw [map_keep_of_ne n _ (rest.map (fun k => (k, [])))
        (by
          intro p hp
          obtain ⟨kk, hkk, rfl⟩ := List.mem_map.mp hp
          exact fun e => hn_notin (e ▸ hkk))]
      simp [List.append_assoc]
    rw [hset, ih (done ++ [(n, get_names_from_html (unitsHrefs n))])
      (List.nodup_cons.mp hnd).2
      (fun k hk => hok k (List.mem_cons_of_mem n hk))
      (by
        intro k hk p hp
        rcases List.mem_append.mp hp with hpd | hps
        · exact hdisj k (List.mem_cons_of_mem n hk) p hpd
        · have hpn : p = (n, get_names_from_html (unitsHrefs n)) :=
            List.mem_singleton.mp hps
          rw [hpn]
          intro e
          refine hn_notin ?_
          rw [show n = k from e]
          exact hk)]
    simp [List.append_assoc]

/-- C6: re-running `fetch_indexes` overwrites the canonical Index file with
the newly enumerated faction-to-units mapping, whatever mapping any previous
run had persisted at that path: for every prior store `fs`, a successful run
(session up, enumeration completing) leaves `fs` updated at `indexPath` with
exactly the freshly enumerated mapping, and every other path untouched. -/
theorem fetch_indexes_overwrites_index (menuHrefs : List String)
    (unitsO : String → Outcome) (unitsHrefs : String → List String)
    (fs : String → Option IndexMap)
    (hnd : (get_names_from_html menuHrefs).Nodup)
    (hok : ∀ n ∈ get_names_from_html menuHrefs, unitsO n = Outcome.ok) :
    (fetch_indexes Outcome.ok Outcome.ok menuHrefs unitsO unitsHrefs fs).1
      = 0 ∧
    (fetch_indexes Outcome.ok Outcome.ok menuHrefs unitsO unitsHrefs fs).2 =
      Function.update fs indexPath
        (some ((get_names_from_html menuHrefs).map
          (fun n => (n, get_names_from_html (unitsHrefs n))))) := by
  have hu := unitsLoop_spec unitsO unitsHrefs (get_names_from_html menuHrefs)
    [] hnd hok (by intro n _ p hp; simp at hp)
  rw [List.nil_append, List.nil_append] at hu
  simp only [fetch_indexes, fetch_factions_names, init_dictionary_with_keys,
    hu]
  exact ⟨trivial, trivial⟩

/-- C6 witness: two enumerated factions, any prior store content at the index
path is replaced. -/
theorem fetch_indexes_overwrites_index_witness :
    (fetch_indexes Outcome.ok Outcome.ok ["m/a", "m/b"] (fun _ => Outcome.ok)
      (fun n => ["h/x-" ++ n]) (fun _ => some [("old", ["w"])])).1 = 0 ∧
    (fetch_indexes Outcome.ok Outcome.ok ["m/a", "m/b"] (fun _ => Outcome.ok)
      (fun n => ["h/x-" ++ n]) (fun _ => some [("old", ["w"])])).2 =
      Function.update (fun _ => some [("old", ["w"])]) indexPath
        (some ((get_names_from_html ["m/a", "m/b"]).map
          (fun n => (n, get_names_from_html (["h/x-" ++ n]))))) :=
  fetch_indexes_overwrites_index ["m/a", "m/b"] (fun _ => Outcome.ok)
    (fun n => ["h/x-" ++ n]) (fun _ => some [("old", ["w"])]) (by decide)
    (by decide)
